import Mathlib

/-!
Verification of the stream framing controller of the gibme-npm/ssh
repository (src/stream_controller.ts, class StreamController, together
with the older inline variant in src/index.ts).

Shallow embedding notes:

* Bytes are modelled as natural numbers, byte buffers as List Nat.
  The Reader of the bytepack package keeps an internal read cursor;
  consumed bytes are never re-exposed, so we model only the unread
  region: reader.bytes(n) is take n / advance, reader.skip(n) is drop n,
  reader.unreadBytes is List.length, reader.unreadBuffer is the list
  itself.
* Buffer.indexOf(separator, 0, encoding) converts the separator string
  to bytes using the encoding and searches for the first contiguous
  occurrence, returning the byte offset or -1.  We model the separator
  directly at the byte level (bufIndexOf below); the encoding only
  affects the string-to-bytes conversion, which happens before the
  algorithm we verify.
* The host runtime executes callbacks (timer ticks, chunk delivery,
  the close handler, abort calls) one at a time, run to completion
  (spec section 5: single logical thread).  We therefore model a
  session as a sequence of atomic actions applied to a controller
  state.  The only suspension point in the source, the post-close
  drain-wait loop, is modelled by letting other actions interleave
  between the polls and by a separate closeFinish action that is a
  no-op while the loop guard (unreadBytes > 0 && !timer.destroyed)
  still holds.
-/

/-- Events observable by callers of the StreamController. -/
inductive Ev where
  | data (bs : List Nat)
  | completed
  | cancelled
deriving DecidableEq, Repr

/-- The atomic callbacks that can run in a session, in the order the
runtime happens to schedule them: transport chunk delivery, a timer
tick (one drain pass), the transport close notification, the resumption
of the close handler after its drain-wait loop, and a caller abort. -/
inductive Act where
  | chunk (bs : List Nat)
  | tick
  | close
  | closeFinish
  | abort
deriving DecidableEq, Repr

/-- Controller state: the unread region of the reader, the timer's
destroyed flag, the private _done flag, whether the transport close
event has fired, whether the close handler has run past its drain-wait
loop, and whether stream.destroy() has been called. -/
structure St where
  buf : List Nat
  timerDestroyed : Bool
  done : Bool
  closed : Bool
  closeDone : Bool
  streamDestroyed : Bool
deriving DecidableEq, Repr

/-- Model of Buffer.indexOf(sep, 0, encoding) at the byte level: the
offset of the first contiguous occurrence of sep, or -1 when there is
none.  Node returns 0 for an empty search value. -/
def bufIndexOf (sep : List Nat) : List Nat → Int
  | [] => if sep = [] then 0 else -1
  | b :: rest =>
    if List.isPrefixOf sep (b :: rest) then 0
    else if bufIndexOf sep rest < 0 then -1 else bufIndexOf sep rest + 1

/-- The body of the timer tick handler (stream_controller.ts lines
48-62): while a delimiter is found, emit the bytes before it and skip
past the separator.  The handler runs synchronously to completion and
nothing can destroy the timer in its own thread mid-pass, so the
!this.timer.destroyed conjunct of the loop guard is constant during a
pass.  The fuel argument only serves Lean's termination checker: when
the separator is non-empty each iteration consumes at least one byte,
so buf.length + 1 units of fuel are never exhausted (drainLoop_fuel_eq
below). -/
def drainLoop (sep : List Nat) : Nat → List Nat → List (List Nat) × List Nat
  | 0, buf => ([], buf)
  | fuel + 1, buf =>
    let d := bufIndexOf sep buf
    if d < 0 then ([], buf)
    else
      let out := drainLoop sep fuel (buf.drop (d.toNat + sep.length))
      (buf.take d.toNat :: out.1, out.2)

/-- One full drain pass over the buffer: the emitted records in order,
and the remaining (partial-record) bytes. -/
def drainPass (sep : List Nat) (buf : List Nat) : List (List Nat) × List Nat :=
  drainLoop sep (buf.length + 1) buf

/-- StreamController.cleanup (lines 98-104): sets _done, destroys the
timer, destroys the transport stream.  Idempotent. -/
def cleanup (s : St) : St :=
  { s with done := true, timerDestroyed := true, streamDestroyed := true }

/-- One atomic callback.  Disabled callbacks (a tick of a destroyed
timer, a chunk after close or destroy, a close that already happened,
the close handler resuming while its wait-loop guard still holds) are
no-ops.  The emission decisions mirror the source exactly:

* tick: the drain pass emits one data event per extracted record;
* closeFinish: the close handler (lines 64-81) runs this.cleanup()
  first and then checks (this.timer.destroyed && !this.done), reading
  the fields cleanup just wrote;
* abort (lines 90-96): checks (!this.timer.destroyed && !this.done)
  on the pre-state, emits cancelled if it holds, then runs cleanup. -/
def step (sep : List Nat) (s : St) : Act → St × List Ev
  | Act.chunk bs =>
    if !s.closed && !s.streamDestroyed then ({ s with buf := s.buf ++ bs }, [])
    else (s, [])
  | Act.tick =>
    if !s.timerDestroyed then
      ({ s with buf := (drainPass sep s.buf).2 }, ((drainPass sep s.buf).1).map Ev.data)
    else (s, [])
  | Act.close =>
    if !s.closed && !s.streamDestroyed then ({ s with closed := true }, [])
    else (s, [])
  | Act.closeFinish =>
    if s.closed && !s.closeDone && (s.buf.isEmpty || s.timerDestroyed) then
      let s1 := cleanup { s with closeDone := true }
      (s1, if s1.timerDestroyed && !s1.done then [Ev.completed] else [])
    else (s, [])
  | Act.abort =>
    (cleanup s, if !s.timerDestroyed && !s.done then [Ev.cancelled] else [])

/-- Run a sequence of callbacks from a state, collecting emitted events. -/
def runFrom (sep : List Nat) (s : St) : List Act → St × List Ev
  | [] => (s, [])
  | a :: as =>
    let p := step sep s a
    let q := runFrom sep p.1 as
    (q.1, p.2 ++ q.2)

/-- State of a freshly constructed controller: empty reader, live timer,
not done, transport open. -/
def initSt : St :=
  { buf := [], timerDestroyed := false, done := false, closed := false,
    closeDone := false, streamDestroyed := false }

/-- The events a whole session emits under a given callback schedule. -/
def events (sep : List Nat) (acts : List Act) : List Ev :=
  (runFrom sep initSt acts).2

/-- Terminal events are completed and cancelled. -/
def isTerminal : Ev → Bool
  | Ev.data _ => false
  | Ev.completed => true
  | Ev.cancelled => true

/-- Number of terminal events in a trace. -/
def countTerminal (evs : List Ev) : Nat :=
  (evs.filter isTerminal).length

/-- The interval passed to the Timer constructor (line 46):
options.loopInterval || 10, where 0 is falsy in JavaScript. -/
def timerInterval (loopInterval : Nat) : Nat :=
  if loopInterval = 0 then 10 else loopInterval

/-- The interval passed to sleep inside the close handler's drain-wait
loop (line 70): options.loopInterval || 10. -/
def sleepInterval (loopInterval : Nat) : Nat :=
  if loopInterval = 0 then 10 else loopInterval

/-- The default encoding tag written by the constructor. -/
def defaultEncoding : String :=
  "utf8"

/-- The message of the configuration error thrown for an empty
separator (line 43). -/
def separatorEmptyMessage : String :=
  "separator cannot be empty"

/-- The caller-supplied options object (Partial of
StreamController.Options): absent fields are none.  The separator is
kept in byte form; the encoding as its string tag. -/
structure Opts where
  separator : Option (List Nat)
  encoding : Option String
  loopInterval : Option Nat
deriving DecidableEq, Repr

/-- The constructor's defaulting assignments (lines 38-40):
this.options.separator, encoding and loopInterval receive the defaults
via the JavaScript nullish assignment.  this.options aliases the
caller's argument object, so the result is the content of the caller's
object after construction.  [13, 10] is the byte form of the default
separator. -/
def applyDefaults (o : Opts) : Opts :=
  { separator := some (o.separator.getD [13, 10]),
    encoding := some (o.encoding.getD defaultEncoding),
    loopInterval := some (o.loopInterval.getD 10) }

/-- The StreamController constructor (lines 31-46) up to and including
the separator length check: it defaults the options, then throws
before creating the timer or touching the transport when the separator
is empty; otherwise the controller starts in initSt with no events
emitted. -/
def mkController (o : Opts) : Except String (Opts × St) :=
  let o1 := applyDefaults o
  if (o1.separator.getD [13, 10]).length = 0 then
    Except.error separatorEmptyMessage
  else
    Except.ok (o1, initSt)

/-- Concatenation of records each terminated by the separator. -/
def joinTerm (sep : List Nat) : List (List Nat) → List Nat
  | [] => []
  | r :: rs => r ++ sep ++ joinTerm sep rs

/-- An action is a transport chunk or a timer tick. -/
def isChunkTick : Act → Bool
  | Act.chunk _ => true
  | Act.tick => true
  | _ => false

/-- The bytes carried by the chunk actions of a schedule, in order. -/
def chunkBytes : List Act → List Nat
  | [] => []
  | Act.chunk bs :: as => bs ++ chunkBytes as
  | _ :: as => chunkBytes as


/-- A state with empty flags and a given buffer: the controller before
any termination-related callback has run. -/
def quiet (b : List Nat) : St :=
  { buf := b, timerDestroyed := false, done := false, closed := false,
    closeDone := false, streamDestroyed := false }

theorem isPrefixOf_eq_take (sep : List Nat) : ∀ buf : List Nat,
    List.isPrefixOf sep buf = true ↔ buf.take sep.length = sep := by
  induction sep with
  | nil => intro buf; simp [List.isPrefixOf]
  | cons a s ih =>
    intro buf
    cases buf with
    | nil => simp [List.isPrefixOf]
    | cons b bs =>
      show (a == b && List.isPrefixOf s bs) = true ↔ _
      rw [Bool.and_eq_true, beq_iff_eq, List.length_cons, List.take_succ_cons]
      constructor
      · rintro ⟨rfl, h2⟩
        rw [(ih bs).mp h2]
      · intro h
        injection h with h1 h2
        exact ⟨h1.symm, (ih bs).mpr h2⟩

theorem isPrefixOf_length_le {sep buf : List Nat}
    (h : List.isPrefixOf sep buf = true) : sep.length ≤ buf.length := by
  have ht := (isPrefixOf_eq_take sep buf).mp h
  have hl : sep.length = min sep.length buf.length := by
    conv_lhs => rw [← ht]
    exact List.length_take _ _
  omega

theorem isPrefixOf_self_append (sep t : List Nat) :
    List.isPrefixOf sep (sep ++ t) = true := by
  rw [isPrefixOf_eq_take]
  exact List.take_left sep t

theorem isPrefixOf_append_eq {sep u : List Nat} (v : List Nat)
    (h : sep.length ≤ u.length) :
    List.isPrefixOf sep (u ++ v) = List.isPrefixOf sep u := by
  rw [Bool.eq_iff_iff, isPrefixOf_eq_take, isPrefixOf_eq_take,
    List.take_append_of_le_length h]

theorem isPrefixOf_decomp {sep buf : List Nat}
    (h : List.isPrefixOf sep buf = true) : buf = sep ++ buf.drop sep.length := by
  have ht := (isPrefixOf_eq_take sep buf).mp h
  conv_lhs => rw [← List.take_append_drop sep.length buf, ht]

/-- Unfolding equation for bufIndexOf on a non-empty buffer. -/
theorem bufIndexOf_cons (sep : List Nat) (b : Nat) (rest : List Nat) :
    bufIndexOf sep (b :: rest) =
      if List.isPrefixOf sep (b :: rest) then 0
      else if bufIndexOf sep rest < 0 then -1 else bufIndexOf sep rest + 1 := rfl

theorem bufIndexOf_nil_of_ne {sep : List Nat} (h : sep ≠ []) :
    bufIndexOf sep [] = -1 := by
  simp [bufIndexOf, h]

theorem bufIndexOf_sep_nil (buf : List Nat) : bufIndexOf ([] : List Nat) buf = 0 := by
  cases buf with
  | nil => rfl
  | cons b bs => rw [bufIndexOf_cons]; rfl

theorem bufIndexOf_cons_pos {sep : List Nat} {b : Nat} {rest : List Nat}
    (hp : List.isPrefixOf sep (b :: rest) = true) :
    bufIndexOf sep (b :: rest) = 0 := by
  rw [bufIndexOf_cons, if_pos hp]

theorem bufIndexOf_cons_neg {sep : List Nat} {b : Nat} {rest : List Nat}
    (hp : List.isPrefixOf sep (b :: rest) = false) :
    bufIndexOf sep (b :: rest) =
      if bufIndexOf sep rest < 0 then -1 else bufIndexOf sep rest + 1 := by
  rw [bufIndexOf_cons, if_neg (by simp [hp])]

theorem bufIndexOf_cases (sep buf : List Nat) :
    bufIndexOf sep buf = -1 ∨ ∃ n : Nat, bufIndexOf sep buf = (n : Int) := by
  induction buf with
  | nil =>
    by_cases h : sep = []
    · exact Or.inr ⟨0, by simp [bufIndexOf, h]⟩
    · exact Or.inl (bufIndexOf_nil_of_ne h)
  | cons b bs ih =>
    cases hp : List.isPrefixOf sep (b :: bs) with
    | true => exact Or.inr ⟨0, by rw [bufIndexOf_cons_pos hp]; rfl⟩
    | false =>
      rw [bufIndexOf_cons_neg hp]
      rcases ih with h1 | ⟨n, h2⟩
      · rw [h1]
        exact Or.inl (by norm_num)
      · rw [h2, if_neg (by omega)]
        exact Or.inr ⟨n + 1, by omega⟩

theorem bufIndexOf_cons_of_index {sep : List Nat} {b : Nat} {rest : List Nat} {n : Nat}
    (hp : List.isPrefixOf sep (b :: rest) = false)
    (h : bufIndexOf sep rest = (n : Int)) :
    bufIndexOf sep (b :: rest) = ((n + 1 : Nat) : Int) := by
  rw [bufIndexOf_cons_neg hp, h, if_neg (by omega)]
  omega

theorem bufIndexOf_cons_index_inv {sep : List Nat} {b : Nat} {rest : List Nat} {n : Nat}
    (hp : List.isPrefixOf sep (b :: rest) = false)
    (h : bufIndexOf sep (b :: rest) = (n : Int)) :
    ∃ m : Nat, n = m + 1 ∧ bufIndexOf sep rest = (m : Int) := by
  rcases bufIndexOf_cases sep rest with h1 | ⟨m, h2⟩
  · exfalso
    rw [bufIndexOf_cons_neg hp, h1, if_pos (by norm_num)] at h
    omega
  · refine ⟨m, ?_, h2⟩
    rw [bufIndexOf_cons_neg hp, h2, if_neg (by omega)] at h
    omega

theorem bufIndexOf_occ {sep buf : List Nat} {n : Nat}
    (h : bufIndexOf sep buf = (n : Int)) :
    buf.take n ++ sep ++ buf.drop (n + sep.length) = buf ∧
      n + sep.length ≤ buf.length := by
  induction buf generalizing n with
  | nil =>
    by_cases hs : sep = []
    · subst hs
      have hn : n = 0 := by
        rw [bufIndexOf_sep_nil] at h
        omega
      subst hn
      simp
    · rw [bufIndexOf_nil_of_ne hs] at h
      omega
  | cons b bs ih =>
    cases hp : List.isPrefixOf sep (b :: bs) with
    | true =>
      have hn : n = 0 := by
        rw [bufIndexOf_cons_pos hp] at h
        omega
      subst hn
      refine ⟨?_, by simpa using isPrefixOf_length_le hp⟩
      simpa using (isPrefixOf_decomp hp).symm
    | false =>
      obtain ⟨m, rfl, h2⟩ := bufIndexOf_cons_index_inv hp h
      obtain ⟨hdec, hlen⟩ := ih h2
      constructor
      · have hidx : m + 1 + sep.length = (m + sep.length) + 1 := by omega
        rw [List.take_succ_cons, hidx, List.drop_succ_cons]
        simpa using hdec
      · simp only [List.length_cons]
        omega

theorem bufIndexOf_append_right {sep buf : List Nat} {n : Nat} (extra : List Nat)
    (h : bufIndexOf sep buf = (n : Int)) :
    bufIndexOf sep (buf ++ extra) = (n : Int) := by
  induction buf generalizing n with
  | nil =>
    by_cases hs : sep = []
    · subst hs
      have hn : n = 0 := by
        rw [bufIndexOf_sep_nil] at h
        omega
      subst hn
      simpa using bufIndexOf_sep_nil extra
    · rw [bufIndexOf_nil_of_ne hs] at h
      omega
  | cons b bs ih =>
    cases hp : List.isPrefixOf sep (b :: bs) with
    | true =>
      have hn : n = 0 := by
        rw [bufIndexOf_cons_pos hp] at h
        omega
      subst hn
      have hple : sep.length ≤ (b :: bs).length := isPrefixOf_length_le hp
      have hp2 : List.isPrefixOf sep ((b :: bs) ++ extra) = true := by
        rw [isPrefixOf_append_eq extra hple, hp]
      rw [List.cons_append] at hp2
      rw [List.cons_append, bufIndexOf_cons_pos hp2]
      rfl
    | false =>
      obtain ⟨m, rfl, h2⟩ := bufIndexOf_cons_index_inv hp h
      have hple : sep.length ≤ (b :: bs).length := by
        have := (bufIndexOf_occ h2).2
        simp only [List.length_cons]
        omega
      have hp2 : List.isPrefixOf sep ((b :: bs) ++ extra) = false := by
        rw [isPrefixOf_append_eq extra hple, hp]
      rw [List.cons_append] at hp2
      rw [List.cons_append]
      exact bufIndexOf_cons_of_index hp2 (ih h2)

theorem drainLoop_fuel_eq {sep : List Nat} (hsep : sep ≠ []) :
    ∀ f g buf, buf.length < f → buf.length < g →
      drainLoop sep f buf = drainLoop sep g buf := by
  intro f
  induction f with
  | zero => intro g buf hf; omega
  | succ f ih =>
    intro g buf hf hg
    cases g with
    | zero => omega
    | succ g =>
      show drainLoop sep (f + 1) buf = drainLoop sep (g + 1) buf
      rcases bufIndexOf_cases sep buf with h1 | ⟨n, h2⟩
      · simp only [drainLoop, h1]
        norm_num
      · obtain ⟨hdec, hlen⟩ := bufIndexOf_occ h2
        have hsl : 1 ≤ sep.length := List.length_pos.mpr hsep
        have hrest : (buf.drop (n + sep.length)).length < f ∧
            (buf.drop (n + sep.length)).length < g := by
          rw [List.length_drop]
          omega
        simp only [drainLoop, h2]
        rw [if_neg (by omega), if_neg (by omega)]
        rw [ih g (buf.drop ((n : Int).toNat + sep.length))
          (by simpa using hrest.1) (by simpa using hrest.2)]

theorem drainPass_neg {sep buf : List Nat} (h : bufIndexOf sep buf = -1) :
    drainPass sep buf = ([], buf) := by
  show drainLoop sep (buf.length + 1) buf = ([], buf)
  simp only [drainLoop, h]
  norm_num

theorem drainPass_pos {sep buf : List Nat} {n : Nat} (hsep : sep ≠ [])
    (h : bufIndexOf sep buf = (n : Int)) :
    drainPass sep buf =
      (buf.take n :: (drainPass sep (buf.drop (n + sep.length))).1,
       (drainPass sep (buf.drop (n + sep.length))).2) := by
  obtain ⟨hdec, hlen⟩ := bufIndexOf_occ h
  have hsl : 1 ≤ sep.length := List.length_pos.mpr hsep
  have hrest : (buf.drop (n + sep.length)).length < buf.length := by
    rw [List.length_drop]
    omega
  show drainLoop sep (buf.length + 1) buf = _
  simp only [drainLoop, h]
  rw [if_neg (by omega)]
  have htn : ((n : Int)).toNat = n := by omega
  rw [htn]
  rw [drainLoop_fuel_eq hsep buf.length ((buf.drop (n + sep.length)).length + 1)
    (buf.drop (n + sep.length)) hrest (Nat.lt_succ_self _)]
  rfl

theorem drainPass_no_delim_fuel {sep : List Nat} (hsep : sep ≠ []) :
    ∀ f buf, buf.length < f → bufIndexOf sep (drainPass sep buf).2 = -1 := by
  intro f
  induction f with
  | zero => intro buf hf; omega
  | succ f ih =>
    intro buf hf
    rcases bufIndexOf_cases sep buf with h1 | ⟨n, h2⟩
    · rw [drainPass_neg h1]
      exact h1
    · obtain ⟨hdec, hlen⟩ := bufIndexOf_occ h2
      have hsl : 1 ≤ sep.length := List.length_pos.mpr hsep
      rw [drainPass_pos hsep h2]
      exact ih (buf.drop (n + sep.length)) (by rw [List.length_drop]; omega)

/-- After a full drain pass, the remaining unread bytes contain no
occurrence of the separator. -/
theorem drainPass_rest_no_delim {sep : List Nat} (hsep : sep ≠ []) (buf : List Nat) :
    bufIndexOf sep (drainPass sep buf).2 = -1 :=
  drainPass_no_delim_fuel hsep (buf.length + 1) buf (Nat.lt_succ_self _)

theorem drainPass_reconstruct_fuel {sep : List Nat} (hsep : sep ≠ []) :
    ∀ f buf, buf.length < f →
      joinTerm sep (drainPass sep buf).1 ++ (drainPass sep buf).2 = buf := by
  intro f
  induction f with
  | zero => intro buf hf; omega
  | succ f ih =>
    intro buf hf
    rcases bufIndexOf_cases sep buf with h1 | ⟨n, h2⟩
    · rw [drainPass_neg h1]
      rfl
    · obtain ⟨hdec, hlen⟩ := bufIndexOf_occ h2
      have hsl : 1 ≤ sep.length := List.length_pos.mpr hsep
      rw [drainPass_pos hsep h2]
      show (buf.take n ++ sep ++ joinTerm sep (drainPass sep (buf.drop (n + sep.length))).1)
          ++ (drainPass sep (buf.drop (n + sep.length))).2 = buf
      rw [List.append_assoc, List.append_assoc,
        ih (buf.drop (n + sep.length)) (by rw [List.length_drop]; omega),
        ← List.append_assoc]
      exact hdec

/-- The emitted records of a pass, each with its separator re-attached,
followed by the remainder, reproduce the scanned buffer. -/
theorem drainPass_reconstruct {sep : List Nat} (hsep : sep ≠ []) (buf : List Nat) :
    joinTerm sep (drainPass sep buf).1 ++ (drainPass sep buf).2 = buf :=
  drainPass_reconstruct_fuel hsep (buf.length + 1) buf (Nat.lt_succ_self _)

theorem drainPass_split_fuel {sep : List Nat} (hsep : sep ≠ []) :
    ∀ f buf extra, buf.length < f →
      drainPass sep (buf ++ extra) =
        ((drainPass sep buf).1 ++ (drainPass sep ((drainPass sep buf).2 ++ extra)).1,
         (drainPass sep ((drainPass sep buf).2 ++ extra)).2) := by
  intro f
  induction f with
  | zero => intro buf extra hf; omega
  | succ f ih =>
    intro buf extra hf
    rcases bufIndexOf_cases sep buf with h1 | ⟨n, h2⟩
    · rw [drainPass_neg h1]
      simp
    · obtain ⟨hdec, hlen⟩ := bufIndexOf_occ h2
      have hsl : 1 ≤ sep.length := List.length_pos.mpr hsep
      have h2e : bufIndexOf sep (buf ++ extra) = (n : Int) :=
        bufIndexOf_append_right extra h2
      rw [drainPass_pos hsep h2e, drainPass_pos hsep h2]
      rw [List.take_append_of_le_length (by omega),
        List.drop_append_of_le_length (by omega)]
      rw [ih (buf.drop (n + sep.length)) extra (by rw [List.length_drop]; omega)]
      simp

/-- Incremental drain: draining buf ++ extra is draining buf, then
draining its remainder with extra appended. -/
theorem drainPass_split {sep : List Nat} (hsep : sep ≠ []) (buf extra : List Nat) :
    drainPass sep (buf ++ extra) =
      ((drainPass sep buf).1 ++ (drainPass sep ((drainPass sep buf).2 ++ extra)).1,
       (drainPass sep ((drainPass sep buf).2 ++ extra)).2) :=
  drainPass_split_fuel hsep (buf.length + 1) buf extra (Nat.lt_succ_self _)

/-- Draining a buffer of separator-terminated records, none of which
contains an earlier separator occurrence, yields exactly those records
and an empty remainder. -/
theorem drainPass_joinTerm {sep : List Nat} (hsep : sep ≠ [])
    (rs : List (List Nat))
    (H : ∀ r ∈ rs, bufIndexOf sep (r ++ sep) = (r.length : Int)) :
    drainPass sep (joinTerm sep rs) = (rs, []) := by
  induction rs with
  | nil => exact drainPass_neg (bufIndexOf_nil_of_ne hsep)
  | cons r rs ih =>
    have hr := H r (by simp)
    have hcons : joinTerm sep (r :: rs) = r ++ sep ++ joinTerm sep rs := rfl
    have h2 : bufIndexOf sep (joinTerm sep (r :: rs)) = (r.length : Int) := by
      have hx := bufIndexOf_append_right (joinTerm sep rs) hr
      rw [hcons, List.append_assoc]
      rw [List.append_assoc] at hx
      exact hx
    rw [drainPass_pos hsep h2]
    have htake : (joinTerm sep (r :: rs)).take r.length = r := by
      rw [hcons, List.append_assoc]
      exact List.take_left r _
    have hdrop : (joinTerm sep (r :: rs)).drop (r.length + sep.length) = joinTerm sep rs := by
      rw [hcons, ← List.length_append r sep]
      exact List.drop_left (r ++ sep) _
    rw [htake, hdrop, ih (fun x hx => H x (by simp [hx]))]

theorem countTerminal_append (a b : List Ev) :
    countTerminal (a ++ b) = countTerminal a + countTerminal b := by
  simp [countTerminal, List.filter_append]

theorem countTerminal_map_data (l : List (List Nat)) :
    countTerminal (l.map Ev.data) = 0 := by
  induction l with
  | nil => rfl
  | cons x xs ih => simp [countTerminal, List.filter, isTerminal]

theorem completed_not_mem_map_data (l : List (List Nat)) :
    Ev.completed ∉ l.map Ev.data := by
  intro h
  rcases List.mem_map.mp h with ⟨x, _, hx⟩
  cases hx

/-- No single callback ever emits the completed event: the close
handler computes its completion check after cleanup has already set
done, so the check is always false. -/
theorem step_no_completed (sep : List Nat) (s : St) (a : Act) :
    Ev.completed ∉ (step sep s a).2 := by
  cases a with
  | chunk bs =>
    show Ev.completed ∉ (if _ then _ else _ : St × List Ev).2
    split <;> simp
  | tick =>
    show Ev.completed ∉ (if _ then _ else _ : St × List Ev).2
    split
    · exact completed_not_mem_map_data _
    · simp
  | close =>
    show Ev.completed ∉ (if _ then _ else _ : St × List Ev).2
    split <;> simp
  | closeFinish =>
    show Ev.completed ∉ (if _ then _ else _ : St × List Ev).2
    split <;> simp [cleanup]
  | abort =>
    show Ev.completed ∉ (cleanup s, if _ then _ else _).2
    split <;> simp

/-- The completed event is unreachable from every state under every
schedule. -/
theorem runFrom_no_completed (sep : List Nat) (acts : List Act) :
    ∀ s : St, Ev.completed ∉ (runFrom sep s acts).2 := by
  induction acts with
  | nil => intro s h; exact List.not_mem_nil Ev.completed h
  | cons a as ih =>
    intro s h
    rcases List.mem_append.mp h with h1 | h2
    · exact step_no_completed sep s a h1
    · exact ih _ h2

/-- Every callback preserves the done flag once set. -/
theorem step_done_mono (sep : List Nat) (s : St) (a : Act) (h : s.done = true) :
    (step sep s a).1.done = true := by
  cases a with
  | chunk bs =>
    show (if _ then _ else _ : St × List Ev).1.done = true
    split <;> simp [h]
  | tick =>
    show (if _ then _ else _ : St × List Ev).1.done = true
    split <;> simp [h]
  | close =>
    show (if _ then _ else _ : St × List Ev).1.done = true
    split <;> simp [h]
  | closeFinish =>
    show (if _ then _ else _ : St × List Ev).1.done = true
    split <;> simp [cleanup]
    exact h
  | abort => rfl

/-- A callback of a done controller emits no terminal event. -/
theorem step_done_no_terminal (sep : List Nat) (s : St) (a : Act) (h : s.done = true) :
    countTerminal (step sep s a).2 = 0 := by
  cases a with
  | chunk bs =>
    show countTerminal (if _ then _ else _ : St × List Ev).2 = 0
    split <;> rfl
  | tick =>
    show countTerminal (if _ then _ else _ : St × List Ev).2 = 0
    split
    · exact countTerminal_map_data _
    · rfl
  | close =>
    show countTerminal (if _ then _ else _ : St × List Ev).2 = 0
    split <;> rfl
  | closeFinish =>
    show countTerminal (if _ then _ else _ : St × List Ev).2 = 0
    split <;> rfl
  | abort =>
    show countTerminal (if !s.timerDestroyed && !s.done then [Ev.cancelled] else []) = 0
    rw [h]
    simp [countTerminal]

/-- Once done, no schedule emits a terminal event. -/
theorem runFrom_done_no_terminal (sep : List Nat) (acts : List Act) :
    ∀ s : St, s.done = true → countTerminal (runFrom sep s acts).2 = 0 := by
  induction acts with
  | nil => intro s _; rfl
  | cons a as ih =>
    intro s h
    show countTerminal ((step sep s a).2 ++ (runFrom sep (step sep s a).1 as).2) = 0
    rw [countTerminal_append, step_done_no_terminal sep s a h,
      ih _ (step_done_mono sep s a h)]

/-- A single callback either emits no terminal event, or emits exactly
one and leaves the controller done. -/
theorem step_terminal_cases (sep : List Nat) (s : St) (a : Act) :
    countTerminal (step sep s a).2 = 0 ∨
      (countTerminal (step sep s a).2 = 1 ∧ (step sep s a).1.done = true) := by
  cases a with
  | chunk bs =>
    refine Or.inl ?_
    show countTerminal (if _ then _ else _ : St × List Ev).2 = 0
    split <;> rfl
  | tick =>
    refine Or.inl ?_
    show countTerminal (if _ then _ else _ : St × List Ev).2 = 0
    split
    · exact countTerminal_map_data _
    · rfl
  | close =>
    refine Or.inl ?_
    show countTerminal (if _ then _ else _ : St × List Ev).2 = 0
    split <;> rfl
  | closeFinish =>
    refine Or.inl ?_
    show countTerminal (if _ then _ else _ : St × List Ev).2 = 0
    split <;> rfl
  | abort =>
    by_cases hg : (!s.timerDestroyed && !s.done) = true
    · refine Or.inr ⟨?_, rfl⟩
      show countTerminal (if !s.timerDestroyed && !s.done then [Ev.cancelled] else []) = 1
      rw [if_pos hg]
      rfl
    · refine Or.inl ?_
      show countTerminal (if !s.timerDestroyed && !s.done then [Ev.cancelled] else []) = 0
      rw [if_neg hg]
      rfl

/-- At most one terminal event is ever emitted, from any state under
any schedule. -/
theorem runFrom_terminal_le_one (sep : List Nat) (acts : List Act) :
    ∀ s : St, countTerminal (runFrom sep s acts).2 ≤ 1 := by
  induction acts with
  | nil => intro s; exact Nat.zero_le 1
  | cons a as ih =>
    intro s
    show countTerminal ((step sep s a).2 ++ (runFrom sep (step sep s a).1 as).2) ≤ 1
    rw [countTerminal_append]
    rcases step_terminal_cases sep s a with h0 | ⟨h1, hd⟩
    · rw [h0]
      simpa using ih (step sep s a).1
    · rw [h1, runFrom_done_no_terminal sep as _ hd]

theorem initSt_eq_quiet : initSt = quiet [] := rfl

theorem step_quiet_chunk (sep : List Nat) (b c : List Nat) :
    step sep (quiet b) (Act.chunk c) = (quiet (b ++ c), []) := rfl

theorem step_quiet_tick (sep : List Nat) (b : List Nat) :
    step sep (quiet b) Act.tick =
      (quiet ((drainPass sep b).2), ((drainPass sep b).1).map Ev.data) := rfl

/-- Delivering the chunks of a schedule (with any interleaving of timer
ticks) and finishing with one drain pass emits the data events of a
single pass over the concatenated bytes. -/
theorem runFrom_chunkticks {sep : List Nat} (hsep : sep ≠ []) :
    ∀ acts : List Act, (∀ a ∈ acts, isChunkTick a = true) →
      ∀ b : List Nat,
        (runFrom sep (quiet b) (acts ++ [Act.tick])).2 =
          ((drainPass sep (b ++ chunkBytes acts)).1).map Ev.data := by
  intro acts
  induction acts with
  | nil =>
    intro _ b
    show ((step sep (quiet b) Act.tick).2 ++ (runFrom sep _ []).2) = _
    rw [step_quiet_tick]
    show ((drainPass sep b).1).map Ev.data ++ [] = _
    rw [List.append_nil]
    show _ = ((drainPass sep (b ++ chunkBytes [])).1).map Ev.data
    rw [show chunkBytes [] = [] from rfl, List.append_nil]
  | cons a as ih =>
    intro h b
    have has : ∀ x ∈ as, isChunkTick x = true := fun x hx => h x (by simp [hx])
    cases a with
    | chunk c =>
      show ((step sep (quiet b) (Act.chunk c)).2 ++
        (runFrom sep (step sep (quiet b) (Act.chunk c)).1 (as ++ [Act.tick])).2) = _
      rw [step_quiet_chunk]
      show (runFrom sep (quiet (b ++ c)) (as ++ [Act.tick])).2 = _
      rw [ih has (b ++ c)]
      show _ = ((drainPass sep (b ++ chunkBytes (Act.chunk c :: as))).1).map Ev.data
      rw [show chunkBytes (Act.chunk c :: as) = c ++ chunkBytes as from rfl,
        ← List.append_assoc]
    | tick =>
      show ((step sep (quiet b) Act.tick).2 ++
        (runFrom sep (step sep (quiet b) Act.tick).1 (as ++ [Act.tick])).2) = _
      rw [step_quiet_tick]
      show ((drainPass sep b).1).map Ev.data ++
        (runFrom sep (quiet ((drainPass sep b).2)) (as ++ [Act.tick])).2 = _
      rw [ih has ((drainPass sep b).2)]
      show _ = ((drainPass sep (b ++ chunkBytes (Act.tick :: as))).1).map Ev.data
      rw [show chunkBytes (Act.tick :: as) = chunkBytes as from rfl]
      rw [drainPass_split hsep b (chunkBytes as)]
      rw [List.map_append]
    | close => exact absurd (h Act.close (by simp)) (by simp [isChunkTick])
    | closeFinish => exact absurd (h Act.closeFinish (by simp)) (by simp [isChunkTick])
    | abort => exact absurd (h Act.abort (by simp)) (by simp [isChunkTick])

theorem events_chunk_tick (sep b : List Nat) :
    events sep [Act.chunk b, Act.tick] = ((drainPass sep b).1).map Ev.data := by
  show ((step sep initSt (Act.chunk b)).2 ++
    ((step sep (step sep initSt (Act.chunk b)).1 Act.tick).2 ++ (runFrom sep _ []).2)) = _
  rw [initSt_eq_quiet, step_quiet_chunk, step_quiet_tick]
  show [] ++ (((drainPass sep ([] ++ b)).1).map Ev.data ++ []) = _
  rw [List.nil_append, List.append_nil, List.nil_append]

theorem step_closeFinish_eq (sep : List Nat) (s : St)
    (hg : (s.closed && !s.closeDone && (s.buf.isEmpty || s.timerDestroyed)) = true) :
    step sep s Act.closeFinish = (cleanup { s with closeDone := true }, []) := by
  show (if s.closed && !s.closeDone && (s.buf.isEmpty || s.timerDestroyed) then _ else _) = _
  rw [if_pos hg]
  simp [cleanup]

/-- Claim C1.  The claim says a graceful close with a drained buffer
and no abort emits completed and then runs cleanup.  The code runs
cleanup() first and only then evaluates
(this.timer.destroyed && !this.done); cleanup has just set done, so
the check is always false and completed is never emitted.  This
evaluation exhibits the failing session: one record arrives and is
drained, the transport closes, the close handler finishes with an
empty buffer and no abort anywhere, cleanup runs (done ends true), yet
the event trace contains no completed event. -/
theorem C1_graceful_session_eval :
    events [13, 10] [Act.chunk [97, 13, 10], Act.tick, Act.close, Act.closeFinish] =
      [Ev.data [97]] ∧
    (runFrom [13, 10] initSt
      [Act.chunk [97, 13, 10], Act.tick, Act.close, Act.closeFinish]).1.done = true :=
  ⟨rfl, rfl⟩

/-- Claim C2, counterexample.  Records [97, 10] and [98] with separator
[10, 10]: neither record contains the separator, yet concatenating
them with one separator between them makes the first separator
occurrence start inside the first record, so the drain emits a single
mangled record [97] instead of the two claimed records (and the final
record, having no trailing separator, is never emitted at all). -/
theorem C2_framing_counterexample :
    events [10, 10] [Act.chunk (List.intercalate [10, 10] [[97, 10], [98]]), Act.tick] ≠
      [Ev.data [97, 10], Ev.data [98]] := by
  decide

/-- Claim C2, amended.  For input formed by concatenating N records
each immediately followed by the separator, such that in every record
followed by the separator the first separator occurrence is the
appended terminator itself, delivering the bytes and draining emits
exactly N data events, in source order, each carrying exactly the
record's bytes. -/
theorem C2_framing_amended (sep : List Nat) (rs : List (List Nat)) (hsep : sep ≠ [])
    (H : ∀ r ∈ rs, bufIndexOf sep (r ++ sep) = (r.length : Int)) :
    events sep [Act.chunk (joinTerm sep rs), Act.tick] = rs.map Ev.data := by
  rw [events_chunk_tick, drainPass_joinTerm hsep rs H]

theorem C2_framing_amended_witness :
    events [13, 10] [Act.chunk (joinTerm [13, 10] [[97], [98, 99]]), Act.tick] =
      [[97], [98, 99]].map Ev.data :=
  C2_framing_amended [13, 10] [[97], [98, 99]] (by decide) (by decide)

/-- Claim C3, counterexample.  A session that ends gracefully (chunk,
drain, close, close handler finishes) observes zero terminal events,
not exactly one: completed is unreachable because the close handler
checks its completion condition after cleanup. -/
theorem C3_terminal_counterexample :
    countTerminal (events [13, 10]
      [Act.chunk [104, 105, 13, 10], Act.tick, Act.close, Act.closeFinish]) ≠ 1 := by
  decide

/-- Claim C3, amended.  From any controller state and under any
schedule of callbacks, at most one terminal event (completed or
cancelled) is emitted in total: the two are mutually exclusive and
neither can repeat. -/
theorem C3_terminal_at_most_one (sep : List Nat) (s : St) (acts : List Act) :
    countTerminal ((runFrom sep s acts).2) ≤ 1 :=
  runFrom_terminal_le_one sep acts s

/-- Claim C4.  If abort() is called after the transport has closed but
before the close handler has finished (so the timer is not yet
destroyed and done is still false), cancelled fires and completed
never does, whatever happens afterwards. -/
theorem C4_abort_after_close_wins (sep : List Nat) (s : St) (acts : List Act)
    ( _hclosed : s.closed = true) (ht : s.timerDestroyed = false) (hd : s.done = false) :
    Ev.cancelled ∈ (runFrom sep s (Act.abort :: acts)).2 ∧
      Ev.completed ∉ (runFrom sep s (Act.abort :: acts)).2 := by
  have habort : (step sep s Act.abort).2 = [Ev.cancelled] := by
    show (if !s.timerDestroyed && !s.done then [Ev.cancelled] else []) = [Ev.cancelled]
    rw [ht, hd]
    rfl
  constructor
  · show Ev.cancelled ∈
      (step sep s Act.abort).2 ++ (runFrom sep (step sep s Act.abort).1 acts).2
    rw [habort]
    exact List.mem_append.mpr (Or.inl (by simp))
  · exact runFrom_no_completed sep (Act.abort :: acts) s

theorem C4_abort_after_close_wins_witness :
    Ev.cancelled ∈ (runFrom [13, 10]
        { buf := [97], timerDestroyed := false, done := false, closed := true,
          closeDone := false, streamDestroyed := false }
        [Act.abort, Act.closeFinish]).2 ∧
      Ev.completed ∉ (runFrom [13, 10]
        { buf := [97], timerDestroyed := false, done := false, closed := true,
          closeDone := false, streamDestroyed := false }
        [Act.abort, Act.closeFinish]).2 :=
  C4_abort_after_close_wins [13, 10] _ [Act.closeFinish] rfl rfl rfl

/-- Claim C5.  Aborting twice in a row (from any state, with anything
afterwards) yields at most one terminal event in total, and an abort
issued after cleanup has already run (as after natural completion)
emits nothing.  The model is a total function, mirroring that abort()
contains no throwing operation. -/
theorem C5_abort_idempotent (sep : List Nat) (s : St) (acts : List Act) :
    countTerminal ((runFrom sep s (Act.abort :: Act.abort :: acts)).2) ≤ 1 ∧
      (step sep (cleanup s) Act.abort).2 = [] := by
  refine ⟨runFrom_terminal_le_one sep _ s, ?_⟩
  show (if !(cleanup s).timerDestroyed && !(cleanup s).done then [Ev.cancelled] else []) = []
  rfl

/-- Claim C6.  While the transport has closed and the close handler
has not yet finished: if unread bytes remain and the timer is not
destroyed, the handler's resumption is a no-op (it keeps waiting, no
state change, no event); once the buffer is empty or the timer was
destroyed, resuming runs cleanup (done set, timer destroyed, stream
destroyed).  The polling interval of the wait loop equals the timer's
interval: both are options.loopInterval || 10. -/
theorem C6_drain_wait_guard (sep : List Nat) (s : St) (li : Nat)
    (hc : s.closed = true) (hw : s.closeDone = false) :
    (s.buf ≠ [] ∧ s.timerDestroyed = false → step sep s Act.closeFinish = (s, [])) ∧
      (s.buf = [] ∨ s.timerDestroyed = true →
        (step sep s Act.closeFinish).1.done = true ∧
        (step sep s Act.closeFinish).1.timerDestroyed = true ∧
        (step sep s Act.closeFinish).1.streamDestroyed = true) ∧
      sleepInterval li = timerInterval li := by
  refine ⟨?_, ?_, rfl⟩
  · rintro ⟨hb, htd⟩
    have hie : s.buf.isEmpty = false := by
      cases hie : s.buf.isEmpty
      · rfl
      · exact absurd (List.isEmpty_iff.mp hie) hb
    show (if s.closed && !s.closeDone && (s.buf.isEmpty || s.timerDestroyed) then _ else (s, [])) =
      (s, [])
    rw [hc, hw, hie, htd]
    rfl
  · intro h
    have hg : (s.closed && !s.closeDone && (s.buf.isEmpty || s.timerDestroyed)) = true := by
      rw [hc, hw]
      rcases h with hbe | htd
      · rw [hbe]
        rfl
      · rw [htd]
        simp
    rw [step_closeFinish_eq sep s hg]
    exact ⟨rfl, rfl, rfl⟩

theorem C6_drain_wait_guard_witness :
    (St.buf ⟨[], false, false, true, false, false⟩ ≠ [] ∧
        St.timerDestroyed ⟨[], false, false, true, false, false⟩ = false →
        step [13, 10] ⟨[], false, false, true, false, false⟩ Act.closeFinish =
          (⟨[], false, false, true, false, false⟩, [])) ∧
      (St.buf ⟨[], false, false, true, false, false⟩ = [] ∨
          St.timerDestroyed ⟨[], false, false, true, false, false⟩ = true →
        (step [13, 10] ⟨[], false, false, true, false, false⟩ Act.closeFinish).1.done = true ∧
        (step [13, 10] ⟨[], false, false, true, false, false⟩ Act.closeFinish).1.timerDestroyed = true ∧
        (step [13, 10] ⟨[], false, false, true, false, false⟩ Act.closeFinish).1.streamDestroyed = true) ∧
      sleepInterval 0 = timerInterval 0 :=
  C6_drain_wait_guard [13, 10] ⟨[], false, false, true, false, false⟩ 0 rfl rfl

/-- Claim C7.  Constructing with an explicitly empty separator fails
synchronously with the configuration error, before the timer is
created or the transport is piped; no state (and hence no event) comes
into existence for the attempt, whatever the other options are. -/
theorem C7_empty_separator_rejected (enc : Option String) (li : Option Nat) :
    mkController { separator := some [], encoding := enc, loopInterval := li } =
      Except.error separatorEmptyMessage := rfl

/-- Claim C8.  Any schedule of transport chunks and timer ticks,
finished by a drain pass, emits exactly the data events of delivering
the concatenated bytes as one chunk followed by one drain pass:
framing is independent of how the input is cut into chunks, including
cuts through the middle of a delimiter. -/
theorem C8_chunking_independent (sep : List Nat) (acts : List Act) (hsep : sep ≠ [])
    (h : ∀ a ∈ acts, isChunkTick a = true) :
    events sep (acts ++ [Act.tick]) =
      events sep [Act.chunk (chunkBytes acts), Act.tick] := by
  show (runFrom sep initSt (acts ++ [Act.tick])).2 = _
  rw [initSt_eq_quiet, runFrom_chunkticks hsep acts h [], events_chunk_tick,
    List.nil_append]

theorem C8_chunking_independent_witness :
    events [13, 10] ([Act.chunk [97, 13], Act.tick, Act.chunk [10, 98]] ++ [Act.tick]) =
      events [13, 10]
        [Act.chunk (chunkBytes [Act.chunk [97, 13], Act.tick, Act.chunk [10, 98]]), Act.tick] :=
  C8_chunking_independent [13, 10] [Act.chunk [97, 13], Act.tick, Act.chunk [10, 98]]
    (by decide) (by decide)

/-- Claim C9.  A drain pass that runs to completion leaves a remainder
containing no occurrence of the separator (so every complete record
available at the start of the tick was emitted within that tick), and
the emitted records, each with its separator re-attached, followed by
the remainder, reconstruct the buffer the pass started from. -/
theorem C9_tick_leaves_no_delimiter (sep buf : List Nat) (hsep : sep ≠ []) :
    bufIndexOf sep ((drainPass sep buf).2) = -1 ∧
      joinTerm sep ((drainPass sep buf).1) ++ (drainPass sep buf).2 = buf :=
  ⟨drainPass_rest_no_delim hsep buf, drainPass_reconstruct hsep buf⟩

theorem C9_tick_leaves_no_delimiter_witness :
    bufIndexOf [13, 10] ((drainPass [13, 10] [97, 13, 10, 98]).2) = -1 ∧
      joinTerm [13, 10] ((drainPass [13, 10] [97, 13, 10, 98]).1) ++
        (drainPass [13, 10] [97, 13, 10, 98]).2 = [97, 13, 10, 98] :=
  C9_tick_leaves_no_delimiter [13, 10] [97, 13, 10, 98] (by decide)

/-- Claim C10.  The constructor's nullish assignments write through
this.options, which aliases the caller's object: whenever separator,
encoding or loopInterval is absent, the object the caller holds after
construction differs from what it passed, with the absent fields now
holding the defaults [13, 10] (the bytes of CRLF), utf8 and 10. -/
theorem C10_options_mutated (o : Opts)
    (h : o.separator = none ∨ o.encoding = none ∨ o.loopInterval = none) :
    applyDefaults o ≠ o ∧
      (o.separator = none → (applyDefaults o).separator = some [13, 10]) ∧
      (o.encoding = none → (applyDefaults o).encoding = some defaultEncoding) ∧
      (o.loopInterval = none → (applyDefaults o).loopInterval = some 10) := by
  refine ⟨?_, ?_, ?_, ?_⟩
  · intro heq
    rcases h with h1 | h1 | h1
    · have hsep := congrArg Opts.separator heq
      rw [h1] at hsep
      simp [applyDefaults] at hsep
    · have henc := congrArg Opts.encoding heq
      rw [h1] at henc
      simp [applyDefaults] at henc
    · have hli := congrArg Opts.loopInterval heq
      rw [h1] at hli
      simp [applyDefaults] at hli
  · intro h1
    simp [applyDefaults, h1]
  · intro h1
    simp [applyDefaults, h1]
  · intro h1
    simp [applyDefaults, h1]

theorem C10_options_mutated_witness :
    applyDefaults ⟨none, none, none⟩ ≠ (⟨none, none, none⟩ : Opts) ∧
      (Opts.separator ⟨none, none, none⟩ = none →
        (applyDefaults ⟨none, none, none⟩).separator = some [13, 10]) ∧
      (Opts.encoding ⟨none, none, none⟩ = none →
        (applyDefaults ⟨none, none, none⟩).encoding = some defaultEncoding) ∧
      (Opts.loopInterval ⟨none, none, none⟩ = none →
        (applyDefaults ⟨none, none, none⟩).loopInterval = some 10) :=
  C10_options_mutated ⟨none, none, none⟩ (Or.inl rfl)
